import Mathlib

/-!
NemoCalendarEventsModel: filtering, truncation and expiry of a fetched event list.

A shallow embedding of `lightweight/calendareventsmodel/calendareventsmodel.cpp`.

* The C++ object becomes the record `NemoCalendarEventsModel`; every member function
  becomes a pure function returning the new record together with the list of
  observable effects (emitted Qt signals, D-Bus calls, console warnings).
* Values read from the environment are explicit arguments: the two clock readings of
  `getEventsResult`, and the two file-system answers used by `trackMkcal`.
* `QDateTime` is an optional number of milliseconds; `QDateTime::fromString` is a
  parameter `fromString` of the development, so every theorem holds for every parser.
* The watcher on the settings file and on the database directory is represented by the
  action `fileChanged`, which starts the debounce timer.
-/

namespace NemoCalendar

/-! ## Qt value types -/

/-- Qt date-time: `none` is the invalid (default constructed) value, `some ms` is a
valid instant given in milliseconds on a fixed-offset time line. -/
abbrev QDateTime := Option Int

/-- Milliseconds in one day. -/
def msecsPerDay : Int := 86400000

/-- The time of day `QTime(h, m, s, ms)` as milliseconds since midnight. -/
def QTime (h m s ms : Int) : Int := ((h * 60 + m) * 60 + s) * 1000 + ms

namespace QDateTime

/-- Validity test `QDateTime::isValid`. -/
def isValid (d : QDateTime) : Bool := d.isSome

/-- Comparison `operator<`: valid instants compare by their time; an invalid value
sorts before every valid one and is never above anything. -/
def lt : QDateTime → QDateTime → Bool
  | some a, some b => decide (a < b)
  | none, some _ => true
  | _, none => false

/-- Comparison `operator>`, the mirror image of `lt`. -/
def gt (a b : QDateTime) : Bool := lt b a

/-- Shift by seconds, `QDateTime::addSecs`; an invalid value stays invalid. -/
def addSecs (d : QDateTime) (s : Int) : QDateTime := d.map (fun ms => ms + 1000 * s)

/-- Shift by whole days, `QDateTime::addDays`; an invalid value stays invalid. -/
def addDays (d : QDateTime) (n : Int) : QDateTime := d.map (fun ms => ms + msecsPerDay * n)

/-- Replace the time of day and keep the date, `QDateTime::setTime`. -/
def setTime (d : QDateTime) (t : Int) : QDateTime :=
  d.map (fun ms => ms / msecsPerDay * msecsPerDay + t)

end QDateTime

/-- Qt model index restricted to what `rowCount` inspects: `none` is the root index
`QModelIndex()`, `some r` is an index pointing at row `r`. -/
abbrev QModelIndex := Option Nat

/-! ## Enumerations of the class declaration -/

/-- Modelled from the spec: the enumerator of `FilterMode` meaning no time filter; the
class declaration (calendareventsmodel.h) is not among the sources, the spec names the
three filtering rules "past-only, past-and-current, or none". -/
def FilterNone : Int := 0

/-- Modelled from the spec: the enumerator of `FilterMode` hiding events that are over
(the header declaring it is not among the sources). -/
def FilterPast : Int := 1

/-- Modelled from the spec: the enumerator of `FilterMode` hiding events that are over or
have begun (the header declaring it is not among the sources). -/
def FilterPastAndCurrent : Int := 2

/-- Modelled from the spec: the enumerator of `ContentType` admitting every event (the
header declaring it is not among the sources). -/
def ContentAll : Int := 0

/-- Modelled from the spec: the enumerator of `ContentType` admitting timed events only
(the header declaring it is not among the sources). -/
def ContentEvents : Int := 1

/-- Modelled from the spec: the enumerator of `ContentType` admitting all-day events only
(the header declaring it is not among the sources). -/
def ContentAllDay : Int := 2

/-! ## Data model -/

/-- One event as delivered by the calendar service; the fields are the ones read by
`data()` and by `getEventsResult`. -/
structure EventData where
  displayLabel : String
  description : String
  startTime : String
  endTime : String
  recurrenceId : String
  allDay : Bool
  location : String
  calendarUid : String
  uniqueId : String
  color : String
  deriving DecidableEq, Repr

/-- Signals of the class that the embedded member functions can emit. -/
inductive Signal where
  | eventLimitChanged
  | eventDisplayTimeChanged
  | startDateChanged
  | endDateChanged
  | filterModeChanged
  | contentTypeChanged
  | creationDateChanged
  | expiryDateChanged
  | countChanged
  | totalCountChanged
  | modelAboutToBeReset
  | modelReset
  deriving DecidableEq, Repr

/-- Observable effects of a member function, in the order in which they happen. -/
inductive Effect where
  | emit (s : Signal)
  | getEvents (startDate endDate : QDateTime)
  | qWarning
  deriving DecidableEq, Repr

/-- The member variables of the class. `mUpdateDelayTimer` records whether the
single-shot debounce timer is running. -/
structure NemoCalendarEventsModel where
  mFilterMode : Int
  mContentType : Int
  mEventLimit : Int
  mTotalCount : Int
  mEventDisplayTime : Int
  m_mkcalTracked : Bool
  mStartDate : QDateTime
  mEndDate : QDateTime
  mCreationDate : QDateTime
  mExpiryDate : QDateTime
  mEventDataList : List EventData
  mTransactionId : String
  mUpdateDelayTimer : Bool
  deriving DecidableEq, Repr

namespace NemoCalendarEventsModel

/-! ## Member functions -/

/-- Member `trackMkcal`: start watching the database directory once it exists.
`dirExists` is the answer of `QFile::exists`, `addPathOk` the answer of `addPath`. -/
def trackMkcal (m : NemoCalendarEventsModel) (dirExists addPathOk : Bool) :
    NemoCalendarEventsModel × List Effect :=
  if m.m_mkcalTracked then (m, [])
  else if dirExists then
    if !addPathOk then (m, [Effect.qWarning])
    else ({ m with m_mkcalTracked := true }, [])
  else (m, [Effect.qWarning])

/-- The constructor: initial member values followed by `trackMkcal()`. -/
def construct (dirExists addPathOk : Bool) : NemoCalendarEventsModel × List Effect :=
  trackMkcal
    { mFilterMode := FilterNone
      mContentType := ContentAll
      mEventLimit := 1000
      mTotalCount := 0
      mEventDisplayTime := 0
      m_mkcalTracked := false
      mStartDate := none
      mEndDate := none
      mCreationDate := none
      mExpiryDate := none
      mEventDataList := []
      mTransactionId := ""
      mUpdateDelayTimer := false }
    dirExists addPathOk

/-- Member `count`: `qMin(mEventDataList.count(), mEventLimit)`. -/
def count (m : NemoCalendarEventsModel) : Int :=
  min (m.mEventDataList.length : Int) m.mEventLimit

/-- Member `totalCount`. -/
def totalCount (m : NemoCalendarEventsModel) : Int := m.mTotalCount

/-- Member `creationDate`. -/
def creationDate (m : NemoCalendarEventsModel) : QDateTime := m.mCreationDate

/-- Member `expiryDate`. -/
def expiryDate (m : NemoCalendarEventsModel) : QDateTime := m.mExpiryDate

/-- Member `eventLimit`. -/
def eventLimit (m : NemoCalendarEventsModel) : Int := m.mEventLimit

/-- Member `rowCount`: zero for every index but the root. -/
def rowCount (m : NemoCalendarEventsModel) (index : QModelIndex) : Int :=
  if index ≠ none then 0 else (m.mEventDataList.length : Int)

/-- Member `restartUpdateTimer`: run the debounce timer only for a valid start date. -/
def restartUpdateTimer (m : NemoCalendarEventsModel) : NemoCalendarEventsModel :=
  if m.mStartDate.isValid then { m with mUpdateDelayTimer := true }
  else { m with mUpdateDelayTimer := false }

/-- Member `setEventLimit`. -/
def setEventLimit (m : NemoCalendarEventsModel) (limit : Int) :
    NemoCalendarEventsModel × List Effect :=
  if m.mEventLimit = limit ∨ limit ≤ 0 then (m, [])
  else (restartUpdateTimer { m with mEventLimit := limit },
        [Effect.emit Signal.eventLimitChanged])

/-- Member `setEventDisplayTime`. -/
def setEventDisplayTime (m : NemoCalendarEventsModel) (seconds : Int) :
    NemoCalendarEventsModel × List Effect :=
  if m.mEventDisplayTime = seconds then (m, [])
  else (restartUpdateTimer { m with mEventDisplayTime := seconds },
        [Effect.emit Signal.eventDisplayTimeChanged])

/-- Member `setStartDate`. -/
def setStartDate (m : NemoCalendarEventsModel) (startDate : QDateTime) :
    NemoCalendarEventsModel × List Effect :=
  if m.mStartDate = startDate then (m, [])
  else (restartUpdateTimer { m with mStartDate := startDate },
        [Effect.emit Signal.startDateChanged])

/-- Member `setEndDate`. -/
def setEndDate (m : NemoCalendarEventsModel) (endDate : QDateTime) :
    NemoCalendarEventsModel × List Effect :=
  if m.mEndDate = endDate then (m, [])
  else (restartUpdateTimer { m with mEndDate := endDate },
        [Effect.emit Signal.endDateChanged])

/-- Member `setFilterMode`. -/
def setFilterMode (m : NemoCalendarEventsModel) (mode : Int) :
    NemoCalendarEventsModel × List Effect :=
  if m.mFilterMode = mode then (m, [])
  else (restartUpdateTimer { m with mFilterMode := mode },
        [Effect.emit Signal.filterModeChanged])

/-- Member `setContentType`. -/
def setContentType (m : NemoCalendarEventsModel) (contentType : Int) :
    NemoCalendarEventsModel × List Effect :=
  if m.mContentType = contentType then (m, [])
  else (restartUpdateTimer { m with mContentType := contentType },
        [Effect.emit Signal.contentTypeChanged])

/-- Member `update`: forget the transaction id and ask the service for the events of
the date range. -/
def update (m : NemoCalendarEventsModel) : NemoCalendarEventsModel × List Effect :=
  let endDate := if m.mEndDate.isValid then m.mEndDate else m.mStartDate
  ({ m with mTransactionId := "" }, [Effect.getEvents m.mStartDate endDate])

/-- Member `updateFinished`: `reply` is `none` for an error reply and `some id` for a
reply carrying the transaction id. -/
def updateFinished (m : NemoCalendarEventsModel) (reply : Option String) :
    NemoCalendarEventsModel × List Effect :=
  match reply with
  | none => (m, [Effect.qWarning])
  | some value => ({ m with mTransactionId := value }, [])

/-- The local variables that the `foreach` loop of `getEventsResult` updates. -/
structure LoopState where
  mEventDataList : List EventData
  expiryDate : QDateTime
  mTotalCount : Int
  deriving DecidableEq, Repr

section Loop

variable (fromString : String → QDateTime)

/-- One iteration of the `foreach` loop of `getEventsResult`. -/
def loopBody (m : NemoCalendarEventsModel) (now : QDateTime) (st : LoopState)
    (e : EventData) : LoopState :=
  if (e.allDay && m.mContentType == ContentEvents)
      || (!e.allDay && m.mContentType == ContentAllDay) then st
  else
    let startTime := fromString e.startTime
    let endTime :=
      if m.mEventDisplayTime > 0 then startTime.addSecs m.mEventDisplayTime
      else fromString e.endTime
    if e.allDay
        || (m.mFilterMode == FilterPast && QDateTime.lt now endTime)
        || (m.mFilterMode == FilterPastAndCurrent && QDateTime.lt now startTime)
        || (m.mFilterMode == FilterNone) then
      let st1 : LoopState :=
        if (st.mEventDataList.length : Int) < m.mEventLimit then
          let st2 : LoopState := { st with mEventDataList := st.mEventDataList ++ [e] }
          if !e.allDay then
            if m.mFilterMode == FilterPast
                && (!st2.expiryDate.isValid || QDateTime.gt st2.expiryDate endTime) then
              { st2 with expiryDate := endTime }
            else if m.mFilterMode == FilterPastAndCurrent
                && (!st2.expiryDate.isValid || QDateTime.gt st2.expiryDate startTime) then
              { st2 with expiryDate := startTime }
            else st2
          else st2
        else st
      { st1 with mTotalCount := st1.mTotalCount + 1 }
    else st

/-- The whole `foreach` loop, started from the cleared list, the invalid expiry date and
a zero total. -/
def loop (m : NemoCalendarEventsModel) (now : QDateTime) (eventDataList : List EventData) :
    LoopState :=
  eventDataList.foldl (loopBody fromString m now)
    { mEventDataList := [], expiryDate := none, mTotalCount := 0 }

/-- Slot `getEventsResult`. `now` and `created` are the two readings of
`QDateTime::currentDateTime()`, `dirExists` and `addPathOk` feed `trackMkcal`. -/
def getEventsResult (m : NemoCalendarEventsModel) (dirExists addPathOk : Bool)
    (now created : Int) (transactionId : String) (eventDataList : List EventData) :
    NemoCalendarEventsModel × List Effect :=
  let (m0, fx) := m.trackMkcal dirExists addPathOk
  if m0.mTransactionId ≠ transactionId
      ∨ (m0.mEventDataList.isEmpty ∧ eventDataList.isEmpty) then (m0, fx)
  else
    let oldcount : Int := m0.mEventDataList.length
    let oldTotalCount := m0.mTotalCount
    let st := loop fromString m0 (some now) eventDataList
    let expiryDate : QDateTime :=
      if !st.expiryDate.isValid then
        if m0.mEndDate.isValid then m0.mEndDate
        else (m0.mStartDate.addDays 1).setTime (QTime 0 0 0 1)
      else st.expiryDate
    let m1 : NemoCalendarEventsModel :=
      { m0 with
        mEventDataList := st.mEventDataList
        mTotalCount := st.mTotalCount
        mCreationDate := some created
        mExpiryDate := expiryDate }
    (m1,
      fx ++ [Effect.emit Signal.modelAboutToBeReset,
             Effect.emit Signal.creationDateChanged,
             Effect.emit Signal.expiryDateChanged,
             Effect.emit Signal.modelReset]
         ++ (if m1.count ≠ oldcount then [Effect.emit Signal.countChanged] else [])
         ++ (if m1.mTotalCount ≠ oldTotalCount then [Effect.emit Signal.totalCountChanged]
             else []))

end Loop

/-! ## Wording of the specification, used to state the properties -/

section SpecWords

variable (fromString : String → QDateTime)

/-- Effective end time of an event as the specification words it: start time plus
`eventDisplayTime` seconds when `eventDisplayTime > 0`, the own end time otherwise. -/
def effectiveEndTime (m : NemoCalendarEventsModel) (e : EventData) : QDateTime :=
  if 0 < m.mEventDisplayTime then (fromString e.startTime).addSecs m.mEventDisplayTime
  else fromString e.endTime

/-- Exclusion by content type as the specification words it: all-day events are excluded
under `ContentEvents`, timed events under `ContentAllDay`. -/
def excludedByContentType (m : NemoCalendarEventsModel) (e : EventData) : Prop :=
  (e.allDay = true ∧ m.mContentType = ContentEvents)
    ∨ (e.allDay = false ∧ m.mContentType = ContentAllDay)

instance (m : NemoCalendarEventsModel) (e : EventData) :
    Decidable (excludedByContentType m e) := by
  unfold excludedByContentType; infer_instance

/-- The content-type and time-window filter as the specification words it: the event is
not excluded by content type, and it is all-day, or the mode is `FilterNone`, or the mode
is `FilterPast` and `now` is before the effective end, or the mode is
`FilterPastAndCurrent` and `now` is before the start. -/
def passesFilter (m : NemoCalendarEventsModel) (now : Int) (e : EventData) : Prop :=
  ¬ excludedByContentType m e ∧
    (e.allDay = true
      ∨ m.mFilterMode = FilterNone
      ∨ (m.mFilterMode = FilterPast
          ∧ QDateTime.lt (some now) (effectiveEndTime fromString m e) = true)
      ∨ (m.mFilterMode = FilterPastAndCurrent
          ∧ QDateTime.lt (some now) (fromString e.startTime) = true))

instance (m : NemoCalendarEventsModel) (now : Int) (e : EventData) :
    Decidable (passesFilter fromString m now e) := by
  unfold passesFilter; infer_instance

/-- The incoming events that pass the filter, in input order. -/
def passing (m : NemoCalendarEventsModel) (now : Int) (eventDataList : List EventData) :
    List EventData :=
  eventDataList.filter (fun e => decide (passesFilter fromString m now e))

end SpecWords

section ExpiryWords

variable (fromString : String → QDateTime)

/-- The time of a timed event that decides when it leaves the list: the effective end
time under `FilterPast`, the start time otherwise. -/
def expiryKey (m : NemoCalendarEventsModel) (e : EventData) : QDateTime :=
  if m.mFilterMode = FilterPast then effectiveEndTime fromString m e
  else fromString e.startTime

/-- Relation between the loop's expiry date and the events stored so far: a valid expiry
date occurs only in the two time-filtering modes and is the key of a stored timed event;
in those modes every stored timed event has a valid key that is not before the expiry
date. -/
def ExpiryInv (m : NemoCalendarEventsModel) (st : LoopState) : Prop :=
  (∀ x, st.expiryDate = some x →
      (m.mFilterMode = FilterPast ∨ m.mFilterMode = FilterPastAndCurrent)
        ∧ ∃ e ∈ st.mEventDataList, e.allDay = false ∧ expiryKey fromString m e = some x)
    ∧ ((m.mFilterMode = FilterPast ∨ m.mFilterMode = FilterPastAndCurrent) →
        ∀ e ∈ st.mEventDataList, e.allDay = false →
          ∃ x y, st.expiryDate = some x ∧ expiryKey fromString m e = some y ∧ x ≤ y)

end ExpiryWords

/-- A date-time `d` is the minimum of the list `ds`: it occurs in the list, and every
entry is a valid date-time that is not before `d`. -/
def IsMinimumOf (d : QDateTime) (ds : List QDateTime) : Prop :=
  d ∈ ds ∧ ∀ y ∈ ds, d.isValid = true ∧ y.isValid = true ∧ QDateTime.lt y d = false

/-- A response is applied when the transaction id matches and the stored and the incoming
list are not both empty. -/
def Applied (m : NemoCalendarEventsModel) (transactionId : String)
    (eventDataList : List EventData) : Prop :=
  m.mTransactionId = transactionId ∧ ¬ (m.mEventDataList = [] ∧ eventDataList = [])

instance (m : NemoCalendarEventsModel) (transactionId : String)
    (eventDataList : List EventData) : Decidable (Applied m transactionId eventDataList) := by
  unfold Applied; infer_instance

/-! ## The model as a transition system -/

/-- Everything that can happen to a model object. -/
inductive Action where
  | setEventLimit (limit : Int)
  | setEventDisplayTime (seconds : Int)
  | setStartDate (startDate : QDateTime)
  | setEndDate (endDate : QDateTime)
  | setFilterMode (mode : Int)
  | setContentType (contentType : Int)
  | fileChanged
  | timeout
  | update
  | updateFinished (reply : Option String)
  | getEventsResult (dirExists addPathOk : Bool) (now created : Int)
      (transactionId : String) (eventDataList : List EventData)

section Transitions

variable (fromString : String → QDateTime)

/-- One transition. `fileChanged` is the watcher signal wired to the timer's `start()`;
`timeout` is the single-shot timer firing, which runs the slot `update()`. -/
def step (m : NemoCalendarEventsModel) : Action → NemoCalendarEventsModel × List Effect
  | Action.setEventLimit limit => m.setEventLimit limit
  | Action.setEventDisplayTime seconds => m.setEventDisplayTime seconds
  | Action.setStartDate startDate => m.setStartDate startDate
  | Action.setEndDate endDate => m.setEndDate endDate
  | Action.setFilterMode mode => m.setFilterMode mode
  | Action.setContentType contentType => m.setContentType contentType
  | Action.fileChanged => ({ m with mUpdateDelayTimer := true }, [])
  | Action.timeout =>
      if m.mUpdateDelayTimer then
        NemoCalendarEventsModel.update { m with mUpdateDelayTimer := false }
      else (m, [])
  | Action.update => m.update
  | Action.updateFinished reply => m.updateFinished reply
  | Action.getEventsResult dirExists addPathOk now created transactionId eventDataList =>
      m.getEventsResult fromString dirExists addPathOk now created transactionId
        eventDataList

/-- Run a sequence of actions and collect the effects. -/
def run (m : NemoCalendarEventsModel) : List Action → NemoCalendarEventsModel × List Effect
  | [] => (m, [])
  | a :: as =>
      let r := step fromString m a
      let r2 := run r.1 as
      (r2.1, r.2 ++ r2.2)

/-- States reachable from the constructed object by any sequence of actions. -/
inductive Reachable : NemoCalendarEventsModel → Prop where
  | construct (dirExists addPathOk : Bool) :
      Reachable (NemoCalendarEventsModel.construct dirExists addPathOk).1
  | step (m : NemoCalendarEventsModel) (a : Action) :
      Reachable m → Reachable (step fromString m a).1

end Transitions

/-! ## The model together with the calendar service -/

/-- A model object and the number of `getEvents` calls it has made; the calls are
numbered from zero in the order in which `update()` issued them. -/
structure System where
  model : NemoCalendarEventsModel
  issued : Nat
  deriving DecidableEq, Repr

/-- What can happen between the model and the service: `update()` runs, the pending call
number `call` finishes (with an error or with its transaction id), or the service
announces the result of call number `call`. -/
inductive Exchange where
  | update
  | updateFinished (call : Nat) (error : Bool)
  | getEventsResult (call : Nat) (dirExists addPathOk : Bool) (now created : Int)
      (eventDataList : List EventData)

section Service

variable (fromString : String → QDateTime)

/-- Modelled from the spec: the calendar data service, which is not among the sources,
answers call number `k` with the transaction id `txn k` and announces the events of that
call under the same id; the model functions themselves are the ones embedded above. -/
def System.step (txn : Nat → String) (s : System) : Exchange → System
  | Exchange.update => { model := s.model.update.1, issued := s.issued + 1 }
  | Exchange.updateFinished call error =>
      { s with model :=
          (s.model.updateFinished (if error then none else some (txn call))).1 }
  | Exchange.getEventsResult call dirExists addPathOk now created eventDataList =>
      { s with model :=
          (s.model.getEventsResult fromString dirExists addPathOk now created (txn call)
            eventDataList).1 }

/-- Run a sequence of exchanges. -/
def System.run (txn : Nat → String) (s : System) (xs : List Exchange) : System :=
  xs.foldl (System.step fromString txn) s

end Service

/-- What every reachable state satisfies: a positive limit, and a total that is at least
the number of stored events. -/
def Sound (m : NemoCalendarEventsModel) : Prop :=
  1 ≤ m.mEventLimit ∧ (m.mEventDataList.length : Int) ≤ m.mTotalCount

/-! ## Sample inputs -/

/-- A sample parser: the empty text is unparseable, any other text denotes the instant
ten milliseconds times its length. -/
def sampleParse (s : String) : QDateTime := if s = "" then none else some (s.length * 10)

/-- A sample event with the given start text, end text and all-day flag. -/
def sampleEvent (startTime endTime : String) (allDay : Bool) : EventData :=
  { displayLabel := "label", description := "", startTime := startTime, endTime := endTime,
    recurrenceId := "", allDay := allDay, location := "", calendarUid := "", uniqueId := "",
    color := "" }

/-- A freshly constructed model whose database directory is being watched. -/
def sampleModel : NemoCalendarEventsModel := (construct true true).1

/-- The sample model after selecting `FilterPast` and a limit of two events. -/
def samplePastModel : NemoCalendarEventsModel :=
  (run sampleParse sampleModel [Action.setFilterMode FilterPast, Action.setEventLimit 2]).1

/-- The sample model after a valid start date was set. -/
def sampleDatedModel : NemoCalendarEventsModel :=
  (run sampleParse sampleModel [Action.setStartDate (some 100)]).1

/-- Sample incoming list whose times all parse: a timed event ending at 20, an all-day
event and a timed event ending at 40. -/
def sampleValidEvents : List EventData :=
  [sampleEvent "a" "ab" false, sampleEvent "a" "abc" true, sampleEvent "a" "abcd" false]

/-- Two all-day events. -/
def sampleAllDayEvents : List EventData :=
  [sampleEvent "a" "ab" true, sampleEvent "a" "abc" true]

/-- A run of the model: the start date is set, the timer fires, the service answers with
the id "t1" and delivers two events, the limit is lowered to one, the timer fires again
and the service answers with the id "t2". -/
def sampleShrinkActions : List Action :=
  [Action.setStartDate (some 100), Action.timeout, Action.updateFinished (some "t1"),
   Action.getEventsResult true true 15 16 "t1" sampleAllDayEvents,
   Action.setEventLimit 1, Action.timeout, Action.updateFinished (some "t2")]

/-- The state reached by `sampleShrinkActions`: two stored events under a limit of one. -/
def sampleShrunkModel : NemoCalendarEventsModel :=
  (run sampleParse sampleModel sampleShrinkActions).1

/-- Sample transaction ids of the service: call `k` gets the letter t followed by `k`
strokes, so the ids are non-empty and pairwise different. -/
def sampleTxn (k : Nat) : String := String.mk ('t' :: List.replicate k 'i')

/-- Two calls are issued one after the other and only then the first one finishes. -/
def sampleLateReply : List Exchange :=
  [Exchange.update, Exchange.update, Exchange.updateFinished 0 false]

/-- The system reached by `sampleLateReply` from a fresh model. -/
def sampleLateSystem : System :=
  System.run sampleParse sampleTxn { model := sampleModel, issued := 0 } sampleLateReply

/-- Sample incoming list: a timed event ending at 20, an all-day event, a timed event
ending at 40, an event with unparseable times and a timed event ending at 50. -/
def sampleEvents : List EventData :=
  [sampleEvent "a" "ab" false, sampleEvent "a" "abc" true, sampleEvent "a" "abcd" false,
   sampleEvent "" "" false, sampleEvent "a" "abcde" false]

end NemoCalendarEventsModel

end NemoCalendar

/-! ## Properties -/

namespace NemoCalendar

namespace NemoCalendarEventsModel

section LoopLemmas

variable (fromString : String → QDateTime)

/-- The guard of the loop body is the filter of the specification. -/
theorem loopBody_of_not_passes (m : NemoCalendarEventsModel) (now : Int) (st : LoopState)
    (e : EventData) (h : ¬ passesFilter fromString m now e) :
    loopBody fromString m (some now) st e = st := by
  unfold passesFilter excludedByContentType effectiveEndTime at h
  unfold loopBody
  cases hA : e.allDay <;> simp [hA] at h ⊢ <;> split_ifs <;> simp_all

/-- Stored list after one iteration on an event that passes the filter. -/
theorem loopBody_list_of_passes (m : NemoCalendarEventsModel) (now : Int) (st : LoopState)
    (e : EventData) (h : passesFilter fromString m now e) :
    (loopBody fromString m (some now) st e).mEventDataList =
      if (st.mEventDataList.length : Int) < m.mEventLimit then st.mEventDataList ++ [e]
      else st.mEventDataList := by
  unfold passesFilter excludedByContentType effectiveEndTime at h
  unfold loopBody
  cases hA : e.allDay <;> simp [hA] at h ⊢ <;> split_ifs <;> simp_all <;> aesop

/-- Total after one iteration on an event that passes the filter. -/
theorem loopBody_total_of_passes (m : NemoCalendarEventsModel) (now : Int) (st : LoopState)
    (e : EventData) (h : passesFilter fromString m now e) :
    (loopBody fromString m (some now) st e).mTotalCount = st.mTotalCount + 1 := by
  unfold passesFilter excludedByContentType effectiveEndTime at h
  unfold loopBody
  cases hA : e.allDay <;> simp [hA] at h ⊢ <;> split_ifs <;> simp_all <;> aesop

/-- Expiry date after one iteration on an event that passes the filter. -/
theorem loopBody_expiry_of_passes (m : NemoCalendarEventsModel) (now : Int) (st : LoopState)
    (e : EventData) (h : passesFilter fromString m now e) :
    (loopBody fromString m (some now) st e).expiryDate =
      if (st.mEventDataList.length : Int) < m.mEventLimit ∧ e.allDay = false then
        if m.mFilterMode = FilterPast ∧ (st.expiryDate = none
            ∨ QDateTime.lt (effectiveEndTime fromString m e) st.expiryDate = true) then
          effectiveEndTime fromString m e
        else if m.mFilterMode = FilterPastAndCurrent ∧ (st.expiryDate = none
            ∨ QDateTime.lt (fromString e.startTime) st.expiryDate = true) then
          fromString e.startTime
        else st.expiryDate
      else st.expiryDate := by
  unfold passesFilter excludedByContentType effectiveEndTime at h
  unfold loopBody effectiveEndTime
  cases hA : e.allDay <;> cases hE : st.expiryDate <;>
    simp [hA, hE, QDateTime.gt, QDateTime.isValid] at h ⊢ <;> split_ifs <;> simp_all

theorem lt_some_left {a : Int} {d : QDateTime} (h : QDateTime.lt (some a) d = true) :
    ∃ y, d = some y ∧ a < y := by
  cases d with
  | none => simp [QDateTime.lt] at h
  | some y => exact ⟨y, rfl, by simpa [QDateTime.lt] using h⟩

theorem filterPast_ne_pastAndCurrent : FilterPast ≠ FilterPastAndCurrent := by decide

theorem filterNone_ne_past : FilterNone ≠ FilterPast := by decide

theorem filterNone_ne_pastAndCurrent : FilterNone ≠ FilterPastAndCurrent := by decide

/-- A timed event that passes the filter in a time-filtering mode has a valid key after
`now`. -/
theorem key_of_passes (m : NemoCalendarEventsModel) (now : Int) (e : EventData)
    (h : passesFilter fromString m now e) (hA : e.allDay = false)
    (hm : m.mFilterMode = FilterPast ∨ m.mFilterMode = FilterPastAndCurrent) :
    ∃ y, expiryKey fromString m e = some y ∧ now < y := by
  obtain ⟨_, h2⟩ := h
  unfold expiryKey
  rcases hm with hm | hm
  · rcases h2 with h2 | h2 | ⟨_, h2⟩ | ⟨h3, _⟩
    · simp [hA] at h2
    · rw [hm] at h2; exact absurd h2.symm filterNone_ne_past
    · simpa [hm] using lt_some_left h2
    · rw [hm] at h3; exact absurd h3 filterPast_ne_pastAndCurrent
  · have hne : m.mFilterMode ≠ FilterPast := by
      rw [hm]; exact fun h => filterPast_ne_pastAndCurrent h.symm
    rcases h2 with h2 | h2 | ⟨h3, _⟩ | ⟨_, h2⟩
    · simp [hA] at h2
    · rw [hm] at h2; exact absurd h2.symm filterNone_ne_pastAndCurrent
    · exact absurd h3 hne
    · simpa [hne] using lt_some_left h2

/-- In a time-filtering mode a stored timed event replaces the expiry date exactly when
its key is earlier (or no expiry date was recorded yet). -/
theorem loopBody_expiry_key (m : NemoCalendarEventsModel) (now : Int) (st : LoopState)
    (e : EventData) (h : passesFilter fromString m now e)
    (hroom : (st.mEventDataList.length : Int) < m.mEventLimit) (hA : e.allDay = false)
    (hm : m.mFilterMode = FilterPast ∨ m.mFilterMode = FilterPastAndCurrent) :
    (loopBody fromString m (some now) st e).expiryDate =
      if st.expiryDate = none ∨ QDateTime.lt (expiryKey fromString m e) st.expiryDate = true
      then expiryKey fromString m e else st.expiryDate := by
  rw [loopBody_expiry_of_passes fromString m now st e h]
  unfold expiryKey
  rcases hm with hm | hm
  · have hne : m.mFilterMode ≠ FilterPastAndCurrent := by
      rw [hm]; exact filterPast_ne_pastAndCurrent
    simp [hroom, hA, hm, filterPast_ne_pastAndCurrent]
  · have hne : m.mFilterMode ≠ FilterPast := by
      rw [hm]; exact fun h => filterPast_ne_pastAndCurrent h.symm
    simp [hroom, hA, hm, filterPast_ne_pastAndCurrent.symm]

/-- Outside the time-filtering modes the expiry date is never touched. -/
theorem loopBody_expiry_other (m : NemoCalendarEventsModel) (now : Int) (st : LoopState)
    (e : EventData)
    (hm : ¬ (m.mFilterMode = FilterPast ∨ m.mFilterMode = FilterPastAndCurrent)) :
    (loopBody fromString m (some now) st e).expiryDate = st.expiryDate := by
  by_cases h : passesFilter fromString m now e
  · rw [loopBody_expiry_of_passes fromString m now st e h]
    push_neg at hm
    simp [hm.1, hm.2]
  · rw [loopBody_of_not_passes fromString m now st e h]

/-- One iteration keeps the relation between expiry date and stored events. -/
theorem expiryInv_loopBody (m : NemoCalendarEventsModel) (now : Int) (st : LoopState)
    (e : EventData) (hinv : ExpiryInv fromString m st) :
    ExpiryInv fromString m (loopBody fromString m (some now) st e) := by
  by_cases h : passesFilter fromString m now e
  swap
  · rw [loopBody_of_not_passes fromString m now st e h]; exact hinv
  have hl := loopBody_list_of_passes fromString m now st e h
  have he := loopBody_expiry_of_passes fromString m now st e h
  obtain ⟨inv1, inv2⟩ := hinv
  by_cases hroom : (st.mEventDataList.length : Int) < m.mEventLimit
  swap
  · simp only [hroom, if_false, false_and] at hl he
    unfold ExpiryInv
    rw [hl, he]
    exact ⟨inv1, inv2⟩
  simp only [hroom, if_true] at hl
  cases hA : e.allDay with
  | true =>
    simp only [hA, and_false, if_false, Bool.true_eq_false] at he
    unfold ExpiryInv
    rw [hl, he]
    refine ⟨fun x hx => ?_, fun hm e1 he1 hA1 => ?_⟩
    · obtain ⟨hm, e0, he0, hA0, hk0⟩ := inv1 x hx
      exact ⟨hm, e0, List.mem_append_left _ he0, hA0, hk0⟩
    · rcases List.mem_append.1 he1 with he1 | he1
      · exact inv2 hm e1 he1 hA1
      · rw [List.mem_singleton.1 he1, hA] at hA1
        exact absurd hA1 (by decide)
  | false =>
    by_cases hm : m.mFilterMode = FilterPast ∨ m.mFilterMode = FilterPastAndCurrent
    swap
    · have he2 := loopBody_expiry_other fromString m now st e hm
      unfold ExpiryInv
      rw [hl, he2]
      refine ⟨fun x hx => ?_, fun hm2 => absurd hm2 hm⟩
      exact absurd (inv1 x hx).1 hm
    have hk := loopBody_expiry_key fromString m now st e h hroom hA hm
    obtain ⟨y, hy, _⟩ := key_of_passes fromString m now e h hA hm
    unfold ExpiryInv
    rw [hl, hk, hy]
    cases hX : st.expiryDate with
    | none =>
      simp only [true_or, if_true]
      refine ⟨fun x hx => ?_, fun _ e1 he1 hA1 => ?_⟩
      · refine ⟨hm, e, List.mem_append_right _ (List.mem_singleton.2 rfl), hA, ?_⟩
        rw [hy, hx]
      · rcases List.mem_append.1 he1 with he1 | he1
        · obtain ⟨x1, _, hx1, _⟩ := inv2 hm e1 he1 hA1
          rw [hX] at hx1
          exact absurd hx1 (by simp)
        · rw [List.mem_singleton.1 he1]
          exact ⟨y, y, rfl, hy, le_refl y⟩
    | some x0 =>
      by_cases hlt : y < x0
      · have hc : (some x0 = none ∨ QDateTime.lt (some y) (some x0) = true) := by
          right; simp [QDateTime.lt, hlt]
        simp only [hc, if_true]
        refine ⟨fun x hx => ?_, fun _ e1 he1 hA1 => ?_⟩
        · refine ⟨hm, e, List.mem_append_right _ (List.mem_singleton.2 rfl), hA, ?_⟩
          rw [hy, hx]
        · rcases List.mem_append.1 he1 with he1 | he1
          · obtain ⟨x1, y1, hx1, hy1, hle⟩ := inv2 hm e1 he1 hA1
            rw [hX] at hx1
            have hx01 : x0 = x1 := by simpa using hx1
            exact ⟨y, y1, rfl, hy1, by omega⟩
          · rw [List.mem_singleton.1 he1]
            exact ⟨y, y, rfl, hy, le_refl y⟩
      · have hc : ¬ (some x0 = none ∨ QDateTime.lt (some y) (some x0) = true) := by
          simp [QDateTime.lt, hlt]
        simp only [hc, if_false]
        refine ⟨fun x hx => ?_, fun _ e1 he1 hA1 => ?_⟩
        · obtain ⟨hm0, e0, he0, hA0, hk0⟩ := inv1 x (by rw [hX]; exact hx)
          exact ⟨hm0, e0, List.mem_append_left _ he0, hA0, hk0⟩
        · rcases List.mem_append.1 he1 with he1 | he1
          · obtain ⟨x1, y1, hx1, hy1, hle⟩ := inv2 hm e1 he1 hA1
            rw [hX] at hx1
            exact ⟨x1, y1, hx1, hy1, hle⟩
          · rw [List.mem_singleton.1 he1]
            exact ⟨x0, y, rfl, hy, by omega⟩

/-- Stored list after the loop, started from any intermediate loop state. -/
theorem foldl_loopBody_list (m : NemoCalendarEventsModel) (now : Int)
    (evs : List EventData) (st : LoopState) :
    (evs.foldl (loopBody fromString m (some now)) st).mEventDataList =
      st.mEventDataList ++
        (passing fromString m now evs).take (m.mEventLimit.toNat - st.mEventDataList.length) := by
  induction evs generalizing st with
  | nil => simp [passing]
  | cons e evs ih =>
    rw [List.foldl_cons, ih]
    by_cases h : passesFilter fromString m now e
    · rw [loopBody_list_of_passes fromString m now st e h]
      have hp : passing fromString m now (e :: evs) = e :: passing fromString m now evs := by
        simp [passing, h]
      rw [hp]
      by_cases hroom : (st.mEventDataList.length : Int) < m.mEventLimit
      · have hn : m.mEventLimit.toNat - st.mEventDataList.length
            = (m.mEventLimit.toNat - (st.mEventDataList.length + 1)) + 1 := by omega
        rw [if_pos hroom, hn, List.take_succ_cons]
        simp
      · have hn : m.mEventLimit.toNat - st.mEventDataList.length = 0 := by omega
        rw [if_neg hroom, hn]
        simp
    · rw [loopBody_of_not_passes fromString m now st e h]
      have hp : passing fromString m now (e :: evs) = passing fromString m now evs := by
        simp [passing, h]
      rw [hp]

/-- Total after the loop, started from any intermediate loop state. -/
theorem foldl_loopBody_total (m : NemoCalendarEventsModel) (now : Int)
    (evs : List EventData) (st : LoopState) :
    (evs.foldl (loopBody fromString m (some now)) st).mTotalCount =
      st.mTotalCount + ((passing fromString m now evs).length : Int) := by
  induction evs generalizing st with
  | nil => simp [passing]
  | cons e evs ih =>
    rw [List.foldl_cons, ih]
    by_cases h : passesFilter fromString m now e
    · rw [loopBody_total_of_passes fromString m now st e h]
      have hp : passing fromString m now (e :: evs) = e :: passing fromString m now evs := by
        simp [passing, h]
      rw [hp, List.length_cons]
      push_cast
      omega
    · rw [loopBody_of_not_passes fromString m now st e h]
      have hp : passing fromString m now (e :: evs) = passing fromString m now evs := by
        simp [passing, h]
      rw [hp]

/-- The loop keeps the relation between expiry date and stored events. -/
theorem foldl_loopBody_expiryInv (m : NemoCalendarEventsModel) (now : Int)
    (evs : List EventData) (st : LoopState) (hinv : ExpiryInv fromString m st) :
    ExpiryInv fromString m (evs.foldl (loopBody fromString m (some now)) st) := by
  induction evs generalizing st with
  | nil => exact hinv
  | cons e evs ih =>
    rw [List.foldl_cons]
    exact ih _ (expiryInv_loopBody fromString m now st e hinv)

/-- The stored list of the loop is the leading part of the passing events. -/
theorem loop_list (m : NemoCalendarEventsModel) (now : Int) (evs : List EventData) :
    (loop fromString m (some now) evs).mEventDataList =
      (passing fromString m now evs).take m.mEventLimit.toNat := by
  unfold loop
  rw [foldl_loopBody_list]
  simp

/-- The total of the loop is the number of passing events. -/
theorem loop_total (m : NemoCalendarEventsModel) (now : Int) (evs : List EventData) :
    (loop fromString m (some now) evs).mTotalCount =
      ((passing fromString m now evs).length : Int) := by
  unfold loop
  rw [foldl_loopBody_total]
  simp

/-- The result of the loop satisfies the relation between expiry date and stored
events. -/
theorem loop_expiryInv (m : NemoCalendarEventsModel) (now : Int) (evs : List EventData) :
    ExpiryInv fromString m (loop fromString m (some now) evs) := by
  unfold loop
  apply foldl_loopBody_expiryInv
  exact ⟨fun x hx => by simp at hx, fun _ e he => by simp at he⟩

/-- Member `trackMkcal` touches nothing but the tracking flag. -/
theorem trackMkcal_fst (m : NemoCalendarEventsModel) (dirExists addPathOk : Bool) :
    ∃ b, (m.trackMkcal dirExists addPathOk).1 = { m with m_mkcalTracked := b } := by
  unfold trackMkcal
  split_ifs
  · exact ⟨m.m_mkcalTracked, rfl⟩
  · exact ⟨m.m_mkcalTracked, rfl⟩
  · exact ⟨true, rfl⟩
  · exact ⟨m.m_mkcalTracked, rfl⟩

/-- Member `trackMkcal` emits no signal and makes no call. -/
theorem trackMkcal_snd (m : NemoCalendarEventsModel) (dirExists addPathOk : Bool) :
    ∀ fx ∈ (m.trackMkcal dirExists addPathOk).2, fx = Effect.qWarning := by
  unfold trackMkcal
  cases m.m_mkcalTracked <;> cases dirExists <;> cases addPathOk <;> simp

/-- The loop does not read the tracking flag. -/
theorem loop_tracked (m : NemoCalendarEventsModel) (b : Bool) (now : QDateTime)
    (evs : List EventData) :
    loop fromString { m with m_mkcalTracked := b } now evs = loop fromString m now evs := rfl

/-- The model stored by an applied response. -/
theorem getEventsResult_applied (m : NemoCalendarEventsModel) (dirExists addPathOk : Bool)
    (now created : Int) (tid : String) (evs : List EventData) (h : Applied m tid evs) :
    ∃ b, (m.getEventsResult fromString dirExists addPathOk now created tid evs).1 =
      { m with
        m_mkcalTracked := b
        mEventDataList := (loop fromString m (some now) evs).mEventDataList
        mTotalCount := (loop fromString m (some now) evs).mTotalCount
        mCreationDate := some created
        mExpiryDate :=
          if (loop fromString m (some now) evs).expiryDate = none then
            if m.mEndDate.isValid then m.mEndDate
            else (m.mStartDate.addDays 1).setTime (QTime 0 0 0 1)
          else (loop fromString m (some now) evs).expiryDate } := by
  obtain ⟨b, hb⟩ := trackMkcal_fst m dirExists addPathOk
  obtain ⟨h1, h2⟩ := h
  refine ⟨b, ?_⟩
  rcases hT : m.trackMkcal dirExists addPathOk with ⟨m0, fx⟩
  rw [hT] at hb
  simp only at hb
  subst hb
  have hcond : ¬ (m.mTransactionId ≠ tid ∨ (m.mEventDataList.isEmpty ∧ evs.isEmpty)) := by
    simp only [List.isEmpty_iff]
    tauto
  simp only [getEventsResult, hT, hcond, if_false, loop_tracked]
  cases hE : (loop fromString m (some now) evs).expiryDate <;> simp [QDateTime.isValid]

/-- A response that is not applied leaves everything to `trackMkcal`. -/
theorem getEventsResult_discarded (m : NemoCalendarEventsModel) (dirExists addPathOk : Bool)
    (now created : Int) (tid : String) (evs : List EventData) (h : ¬ Applied m tid evs) :
    m.getEventsResult fromString dirExists addPathOk now created tid evs =
      m.trackMkcal dirExists addPathOk := by
  obtain ⟨b, hb⟩ := trackMkcal_fst m dirExists addPathOk
  rcases hT : m.trackMkcal dirExists addPathOk with ⟨m0, fx⟩
  rw [hT] at hb
  simp only at hb
  subst hb
  have hcond : m.mTransactionId ≠ tid ∨ (m.mEventDataList.isEmpty ∧ evs.isEmpty) := by
    simp only [List.isEmpty_iff]
    unfold Applied at h
    tauto
  simp only [getEventsResult, hT, hcond, if_true]

/-- Member `restartUpdateTimer` touches nothing but the timer. -/
theorem restartUpdateTimer_eq (m : NemoCalendarEventsModel) :
    ∃ b, m.restartUpdateTimer = { m with mUpdateDelayTimer := b } := by
  unfold restartUpdateTimer
  split_ifs
  · exact ⟨true, rfl⟩
  · exact ⟨false, rfl⟩

theorem sound_step (m : NemoCalendarEventsModel) (a : Action) (h : Sound m) :
    Sound (step fromString m a).1 := by
  obtain ⟨h1, h2⟩ := h
  cases a with
  | setEventLimit limit =>
    simp only [step, setEventLimit]
    split_ifs with hc
    · exact ⟨h1, h2⟩
    · obtain ⟨b, hb⟩ := restartUpdateTimer_eq { m with mEventLimit := limit }
      rw [hb]
      push_neg at hc
      exact ⟨by simp only; omega, h2⟩
  | setEventDisplayTime seconds =>
    simp only [step, setEventDisplayTime]
    split_ifs
    · exact ⟨h1, h2⟩
    · obtain ⟨b, hb⟩ := restartUpdateTimer_eq { m with mEventDisplayTime := seconds }
      rw [hb]; exact ⟨h1, h2⟩
  | setStartDate startDate =>
    simp only [step, setStartDate]
    split_ifs
    · exact ⟨h1, h2⟩
    · obtain ⟨b, hb⟩ := restartUpdateTimer_eq { m with mStartDate := startDate }
      rw [hb]; exact ⟨h1, h2⟩
  | setEndDate endDate =>
    simp only [step, setEndDate]
    split_ifs
    · exact ⟨h1, h2⟩
    · obtain ⟨b, hb⟩ := restartUpdateTimer_eq { m with mEndDate := endDate }
      rw [hb]; exact ⟨h1, h2⟩
  | setFilterMode mode =>
    simp only [step, setFilterMode]
    split_ifs
    · exact ⟨h1, h2⟩
    · obtain ⟨b, hb⟩ := restartUpdateTimer_eq { m with mFilterMode := mode }
      rw [hb]; exact ⟨h1, h2⟩
  | setContentType contentType =>
    simp only [step, setContentType]
    split_ifs
    · exact ⟨h1, h2⟩
    · obtain ⟨b, hb⟩ := restartUpdateTimer_eq { m with mContentType := contentType }
      rw [hb]; exact ⟨h1, h2⟩
  | fileChanged => exact ⟨h1, h2⟩
  | timeout =>
    simp only [step]
    split_ifs
    · exact ⟨h1, h2⟩
    · exact ⟨h1, h2⟩
  | update => exact ⟨h1, h2⟩
  | updateFinished reply =>
    cases reply with
    | none => exact ⟨h1, h2⟩
    | some value => exact ⟨h1, h2⟩
  | getEventsResult dirExists addPathOk now created tid evs =>
    simp only [step]
    by_cases happ : Applied m tid evs
    · obtain ⟨b, hb⟩ :=
        getEventsResult_applied fromString m dirExists addPathOk now created tid evs happ
      rw [hb]
      refine ⟨h1, ?_⟩
      simp only [loop_list, loop_total, List.length_take]
      omega
    · rw [getEventsResult_discarded fromString m dirExists addPathOk now created tid evs happ]
      obtain ⟨b, hb⟩ := trackMkcal_fst m dirExists addPathOk
      rw [hb]
      exact ⟨h1, h2⟩

theorem sound_of_reachable (m : NemoCalendarEventsModel) (h : Reachable fromString m) :
    Sound m := by
  induction h with
  | construct dirExists addPathOk =>
    unfold construct
    obtain ⟨b, hb⟩ := trackMkcal_fst
      { mFilterMode := FilterNone, mContentType := ContentAll, mEventLimit := 1000,
        mTotalCount := 0, mEventDisplayTime := 0, m_mkcalTracked := false, mStartDate := none,
        mEndDate := none, mCreationDate := none, mExpiryDate := none, mEventDataList := [],
        mTransactionId := "", mUpdateDelayTimer := false } dirExists addPathOk
    rw [hb]
    exact ⟨by norm_num, by simp⟩
  | step m a _ ih => exact sound_step fromString m a ih

theorem reachable_run (m : NemoCalendarEventsModel) (as : List Action)
    (h : Reachable fromString m) : Reachable fromString (run fromString m as).1 := by
  induction as generalizing m with
  | nil => exact h
  | cons a as ih => exact ih _ (Reachable.step m a h)

theorem take_toNat_min {α : Type} (l : List α) (L : Int) :
    l.take (min L (l.length : Int)).toNat = l.take L.toNat := by
  rcases le_total L (l.length : Int) with h | h
  · rw [min_eq_left h]
  · rw [min_eq_right h, Int.toNat_ofNat, List.take_length, List.take_of_length_le]
    omega

/-- In a time-filtering mode with a stored timed event, the loop's expiry date is the
minimum of the keys of the stored timed events. -/
theorem loop_expiry_isMinimum (m : NemoCalendarEventsModel) (now : Int)
    (evs : List EventData)
    (hm : m.mFilterMode = FilterPast ∨ m.mFilterMode = FilterPastAndCurrent)
    (htimed : ∃ e ∈ (loop fromString m (some now) evs).mEventDataList, e.allDay = false) :
    IsMinimumOf (loop fromString m (some now) evs).expiryDate
      (((loop fromString m (some now) evs).mEventDataList.filter (fun e => !e.allDay)).map
        (expiryKey fromString m)) := by
  obtain ⟨inv1, inv2⟩ := loop_expiryInv fromString m now evs
  obtain ⟨e, he, hA⟩ := htimed
  obtain ⟨x, _, hx, _, _⟩ := inv2 hm e he hA
  obtain ⟨_, e0, he0, hA0, hk0⟩ := inv1 x hx
  refine ⟨?_, fun d hd => ?_⟩
  · rw [hx, ← hk0]
    exact List.mem_map.2 ⟨e0, List.mem_filter.2 ⟨he0, by simp [hA0]⟩, rfl⟩
  · obtain ⟨e1, he1, hd1⟩ := List.mem_map.1 hd
    obtain ⟨he1, hA1⟩ := List.mem_filter.1 he1
    obtain ⟨x1, y1, hx1, hy1, hle⟩ := inv2 hm e1 he1 (by simpa using hA1)
    rw [hx] at hx1
    have hxx : x = x1 := by simpa using hx1
    rw [hx, ← hd1, hy1]
    refine ⟨rfl, rfl, ?_⟩
    simp only [QDateTime.lt, decide_eq_false_iff_not, not_lt]
    omega

theorem lt_mono_left {a b : Int} {d : QDateTime} (hab : a ≤ b)
    (h : QDateTime.lt (some b) d = true) : QDateTime.lt (some a) d = true := by
  obtain ⟨y, hy, hlt⟩ := lt_some_left h
  rw [hy]
  simp only [QDateTime.lt, decide_eq_true_eq]
  omega

/-- An event that passes the filter at a later time passes it at an earlier time. -/
theorem passesFilter_mono (m : NemoCalendarEventsModel) (now t : Int) (e : EventData)
    (hle : now ≤ t) (h : passesFilter fromString m t e) : passesFilter fromString m now e := by
  obtain ⟨h1, h2⟩ := h
  refine ⟨h1, ?_⟩
  rcases h2 with h2 | h2 | ⟨h2, h3⟩ | ⟨h2, h3⟩
  · exact Or.inl h2
  · exact Or.inr (Or.inl h2)
  · exact Or.inr (Or.inr (Or.inl ⟨h2, lt_mono_left hle h3⟩))
  · exact Or.inr (Or.inr (Or.inr ⟨h2, lt_mono_left hle h3⟩))

/-- Filtering with a stronger predicate gives the same leading part as long as the
leading part of the weaker filter satisfies the stronger predicate. -/
theorem take_filter_eq {α : Type} (p q : α → Bool) (l : List α) (n : Nat)
    (hqp : ∀ x, q x = true → p x = true)
    (hall : ∀ x ∈ (l.filter p).take n, q x = true) :
    (l.filter q).take n = (l.filter p).take n := by
  induction l generalizing n with
  | nil => rfl
  | cons x xs ih =>
    cases n with
    | zero => simp
    | succ k =>
      cases hp : p x with
      | false =>
        have hq : q x = false := by
          cases hq : q x with
          | false => rfl
          | true => rw [hqp x hq] at hp; exact absurd hp (by decide)
        simp only [List.filter_cons, hp, hq, Bool.false_eq_true, if_false] at hall ⊢
        exact ih _ hall
      | true =>
        simp only [List.filter_cons, hp, if_true, List.take_succ_cons, List.mem_cons,
          forall_eq_or_imp] at hall
        simp only [List.filter_cons, hp, hall.1, if_true, List.take_succ_cons]
        congr 1
        exact ih _ hall.2

/-- Every stored event still passes the filter at any time before the expiry date that
`getEventsResult` publishes. -/
theorem stored_passes_later (m : NemoCalendarEventsModel) (now t : Int)
    (evs : List EventData) (fallback : QDateTime)
    (hlt : QDateTime.lt (some t)
      (if (loop fromString m (some now) evs).expiryDate = none then fallback
       else (loop fromString m (some now) evs).expiryDate) = true)
    (e : EventData) (he : e ∈ (loop fromString m (some now) evs).mEventDataList) :
    passesFilter fromString m t e := by
  obtain ⟨inv1, inv2⟩ := loop_expiryInv fromString m now evs
  have hpass : passesFilter fromString m now e := by
    rw [loop_list] at he
    have := List.mem_of_mem_take he
    simpa [passing] using (List.mem_filter.1 this).2
  obtain ⟨h1, h2⟩ := hpass
  refine ⟨h1, ?_⟩
  cases hA : e.allDay with
  | true => exact Or.inl rfl
  | false =>
    by_cases hm : m.mFilterMode = FilterPast ∨ m.mFilterMode = FilterPastAndCurrent
    · obtain ⟨x, y, hx, hy, hxy⟩ := inv2 hm e he hA
      rw [hx] at hlt
      simp only [reduceCtorEq, if_false, QDateTime.lt, decide_eq_true_eq] at hlt
      have hkey : QDateTime.lt (some t) (expiryKey fromString m e) = true := by
        rw [hy]
        simp only [QDateTime.lt, decide_eq_true_eq]
        omega
      unfold expiryKey at hkey
      rcases hm with hm | hm
      · rw [if_pos hm] at hkey
        exact Or.inr (Or.inr (Or.inl ⟨hm, hkey⟩))
      · have hne : m.mFilterMode ≠ FilterPast := by
          rw [hm]; exact fun h => filterPast_ne_pastAndCurrent h.symm
        rw [if_neg hne] at hkey
        exact Or.inr (Or.inr (Or.inr ⟨hm, hkey⟩))
    · push_neg at hm
      rcases h2 with h2 | h2 | ⟨h2, _⟩ | ⟨h2, _⟩
      · rw [hA] at h2; exact absurd h2 (by decide)
      · exact Or.inr (Or.inl h2)
      · exact absurd h2 hm.1
      · exact absurd h2 hm.2

/-- The loop stores the same list at every time from `now` up to the published expiry
date. -/
theorem loop_list_stable (m : NemoCalendarEventsModel) (now t : Int)
    (evs : List EventData) (fallback : QDateTime) (hle : now ≤ t)
    (hlt : QDateTime.lt (some t)
      (if (loop fromString m (some now) evs).expiryDate = none then fallback
       else (loop fromString m (some now) evs).expiryDate) = true) :
    (loop fromString m (some t) evs).mEventDataList =
      (loop fromString m (some now) evs).mEventDataList := by
  have hstored := stored_passes_later fromString m now t evs fallback hlt
  rw [loop_list] at hstored ⊢
  rw [loop_list]
  unfold passing at hstored ⊢
  apply take_filter_eq
  · intro x hx
    simp only [decide_eq_true_eq] at hx ⊢
    exact passesFilter_mono fromString m now t x hle hx
  · intro x hx
    simpa using hstored x hx

end LoopLemmas

section Claims

variable (fromString : String → QDateTime)

/-- C1: for a reachable model and an applied response (transaction id matches, stored and
incoming list not both empty) the list stored by `getEventsResult` is exactly the first
`min(eventLimit, k)` elements, in input order, of the `k` incoming events that pass the
content-type and time-window filter; in particular its length never exceeds
`eventLimit`. -/
theorem getEventsResult_stores_leading_passing (m : NemoCalendarEventsModel)
    (dirExists addPathOk : Bool) (now created : Int) (tid : String) (evs : List EventData)
    (hreach : Reachable fromString m) (happ : Applied m tid evs) :
    (m.getEventsResult fromString dirExists addPathOk now created tid evs).1.mEventDataList
        = (passing fromString m now evs).take
            (min m.eventLimit ((passing fromString m now evs).length : Int)).toNat
      ∧ (((m.getEventsResult fromString dirExists addPathOk now created tid
            evs).1.mEventDataList.length : Int) ≤ m.eventLimit) := by
  obtain ⟨b, hb⟩ :=
    getEventsResult_applied fromString m dirExists addPathOk now created tid evs happ
  have hpos := (sound_of_reachable fromString m hreach).1
  rw [hb]
  simp only [loop_list, eventLimit, take_toNat_min, List.length_take, true_and]
  omega

theorem getEventsResult_stores_leading_passing_witness :
    Reachable sampleParse samplePastModel ∧ Applied samplePastModel "" sampleEvents ∧
      (samplePastModel.getEventsResult sampleParse true true 15 16 ""
          sampleEvents).1.mEventDataList
        = (passing sampleParse samplePastModel 15 sampleEvents).take
            (min samplePastModel.eventLimit
              ((passing sampleParse samplePastModel 15 sampleEvents).length : Int)).toNat
      ∧ (((samplePastModel.getEventsResult sampleParse true true 15 16 ""
            sampleEvents).1.mEventDataList.length : Int) ≤ samplePastModel.eventLimit) :=
  ⟨reachable_run sampleParse sampleModel _ (Reachable.construct true true), by decide,
    getEventsResult_stores_leading_passing sampleParse samplePastModel true true 15 16 ""
      sampleEvents (reachable_run sampleParse sampleModel _ (Reachable.construct true true))
      (by decide)⟩

/-- C2: for an applied response, whatever the event limit `limit` is, `totalCount()` after
`getEventsResult` equals the number of incoming events that are not excluded by content
type and that are all-day, or filtered with `FilterNone`, or filtered with `FilterPast`
and `now` before the effective end time, or filtered with `FilterPastAndCurrent` and `now`
before the start time. -/
theorem getEventsResult_totalCount (m : NemoCalendarEventsModel) (limit : Int)
    (dirExists addPathOk : Bool) (now created : Int) (tid : String) (evs : List EventData)
    (happ : Applied m tid evs) :
    (({ m with mEventLimit := limit } : NemoCalendarEventsModel).getEventsResult fromString
        dirExists addPathOk now created tid evs).1.totalCount
      = ((evs.filter (fun e => decide (passesFilter fromString m now e))).length : Int) := by
  have happ2 : Applied ({ m with mEventLimit := limit } : NemoCalendarEventsModel) tid evs :=
    happ
  obtain ⟨b, hb⟩ := getEventsResult_applied fromString
    ({ m with mEventLimit := limit } : NemoCalendarEventsModel) dirExists addPathOk now
    created tid evs happ2
  rw [hb]
  simp only [totalCount, loop_total]
  rfl

theorem getEventsResult_totalCount_witness :
    Applied samplePastModel "" sampleEvents ∧
      (({ samplePastModel with mEventLimit := 1 } : NemoCalendarEventsModel).getEventsResult
          sampleParse true true 15 16 "" sampleEvents).1.totalCount
        = ((sampleEvents.filter
            (fun e => decide (passesFilter sampleParse samplePastModel 15 e))).length : Int) :=
  ⟨by decide,
    getEventsResult_totalCount sampleParse samplePastModel 1 true true 15 16 "" sampleEvents
      (by decide)⟩

/-- C5: a response whose transaction id differs from the stored one is discarded: event
list, `totalCount`, `creationDate` and `expiryDate` are unchanged and no signal is
emitted. -/
theorem getEventsResult_discards_other_id (m : NemoCalendarEventsModel)
    (dirExists addPathOk : Bool) (now created : Int) (tid : String) (evs : List EventData)
    (hid : m.mTransactionId ≠ tid) :
    (m.getEventsResult fromString dirExists addPathOk now created tid evs).1.mEventDataList
        = m.mEventDataList
      ∧ (m.getEventsResult fromString dirExists addPathOk now created tid evs).1.totalCount
        = m.totalCount
      ∧ (m.getEventsResult fromString dirExists addPathOk now created tid evs).1.creationDate
        = m.creationDate
      ∧ (m.getEventsResult fromString dirExists addPathOk now created tid evs).1.expiryDate
        = m.expiryDate
      ∧ ∀ sig, Effect.emit sig ∉
          (m.getEventsResult fromString dirExists addPathOk now created tid evs).2 := by
  have hna : ¬ Applied m tid evs := fun h => hid h.1
  rw [getEventsResult_discarded fromString m dirExists addPathOk now created tid evs hna]
  obtain ⟨b, hb⟩ := trackMkcal_fst m dirExists addPathOk
  refine ⟨by rw [hb], by rw [hb]; rfl, by rw [hb]; rfl, by rw [hb]; rfl, fun sig hsig => ?_⟩
  have := trackMkcal_snd m dirExists addPathOk _ hsig
  exact absurd this (by simp)

theorem getEventsResult_discards_other_id_witness :
    samplePastModel.mTransactionId ≠ "late" ∧
      (samplePastModel.getEventsResult sampleParse true true 15 16 "late"
          sampleEvents).1.mEventDataList = samplePastModel.mEventDataList
      ∧ (samplePastModel.getEventsResult sampleParse true true 15 16 "late"
          sampleEvents).1.totalCount = samplePastModel.totalCount
      ∧ (samplePastModel.getEventsResult sampleParse true true 15 16 "late"
          sampleEvents).1.creationDate = samplePastModel.creationDate
      ∧ (samplePastModel.getEventsResult sampleParse true true 15 16 "late"
          sampleEvents).1.expiryDate = samplePastModel.expiryDate
      ∧ ∀ sig, Effect.emit sig ∉
          (samplePastModel.getEventsResult sampleParse true true 15 16 "late" sampleEvents).2 :=
  ⟨by decide,
    getEventsResult_discards_other_id sampleParse samplePastModel true true 15 16 "late"
      sampleEvents (by decide)⟩

/-- C9: in every state reachable from the constructed model, `eventLimit() >= 1`
(`setEventLimit` ignores limits `<= 0`) and `count() <= rowCount() <= totalCount()`. -/
theorem reachable_limit_and_counts (m : NemoCalendarEventsModel)
    (hreach : Reachable fromString m) :
    1 ≤ m.eventLimit
      ∧ (∀ limit, limit ≤ 0 → m.setEventLimit limit = (m, []))
      ∧ m.count ≤ m.rowCount none
      ∧ m.rowCount none ≤ m.totalCount := by
  obtain ⟨h1, h2⟩ := sound_of_reachable fromString m hreach
  refine ⟨h1, fun limit hl => ?_, ?_, ?_⟩
  · simp [setEventLimit, hl]
  · simp only [count, rowCount, ne_eq, not_true_eq_false, if_false]
    exact min_le_left _ _
  · simpa only [rowCount, ne_eq, not_true_eq_false, if_false, totalCount] using h2

theorem reachable_limit_and_counts_witness :
    Reachable sampleParse samplePastModel ∧ 1 ≤ samplePastModel.eventLimit
      ∧ (∀ limit, limit ≤ 0 → samplePastModel.setEventLimit limit = (samplePastModel, []))
      ∧ samplePastModel.count ≤ samplePastModel.rowCount none
      ∧ samplePastModel.rowCount none ≤ samplePastModel.totalCount :=
  ⟨reachable_run sampleParse sampleModel _ (Reachable.construct true true),
    reachable_limit_and_counts sampleParse samplePastModel
      (reachable_run sampleParse sampleModel _ (Reachable.construct true true))⟩

/-- C7: D-Bus errors are ignored: `updateFinished()` with an error reply leaves the whole
model (transaction id, event list, `totalCount`, `creationDate`, `expiryDate`) unchanged
and issues no fetch; after `update()` followed by an error reply the transaction id is
empty, and every response with a non-empty transaction id is discarded. -/
theorem updateFinished_error_ignored (m : NemoCalendarEventsModel) :
    (m.updateFinished none).1 = m
      ∧ (∀ startDate endDate, Effect.getEvents startDate endDate ∉ (m.updateFinished none).2)
      ∧ (m.update.1.updateFinished none).1.mTransactionId = ""
      ∧ ∀ (dirExists addPathOk : Bool) (now created : Int) (tid : String)
          (evs : List EventData), tid ≠ "" →
          ((m.update.1.updateFinished none).1.getEventsResult fromString dirExists addPathOk
              now created tid evs).1.mEventDataList = m.mEventDataList
          ∧ ((m.update.1.updateFinished none).1.getEventsResult fromString dirExists addPathOk
              now created tid evs).1.totalCount = m.totalCount
          ∧ ((m.update.1.updateFinished none).1.getEventsResult fromString dirExists addPathOk
              now created tid evs).1.creationDate = m.creationDate
          ∧ ((m.update.1.updateFinished none).1.getEventsResult fromString dirExists addPathOk
              now created tid evs).1.expiryDate = m.expiryDate
          ∧ ∀ sig, Effect.emit sig ∉
              ((m.update.1.updateFinished none).1.getEventsResult fromString dirExists
                addPathOk now created tid evs).2 := by
  refine ⟨rfl, fun startDate endDate h => ?_, rfl, ?_⟩
  · simp [updateFinished] at h
  · intro dirExists addPathOk now created tid evs htid
    have hna : ¬ Applied (m.update.1.updateFinished none).1 tid evs :=
      fun h => htid h.1.symm
    rw [getEventsResult_discarded fromString _ dirExists addPathOk now created tid evs hna]
    obtain ⟨b, hb⟩ := trackMkcal_fst (m.update.1.updateFinished none).1 dirExists addPathOk
    refine ⟨by rw [hb]; rfl, by rw [hb]; rfl, by rw [hb]; rfl, by rw [hb]; rfl,
      fun sig hsig => ?_⟩
    have := trackMkcal_snd _ dirExists addPathOk _ hsig
    exact absurd this (by simp)

theorem updateFinished_error_ignored_witness :
    (samplePastModel.updateFinished none).1 = samplePastModel
      ∧ (∀ startDate endDate,
          Effect.getEvents startDate endDate ∉ (samplePastModel.updateFinished none).2)
      ∧ (samplePastModel.update.1.updateFinished none).1.mTransactionId = ""
      ∧ ("t1" ≠ "" ∧
          ((samplePastModel.update.1.updateFinished none).1.getEventsResult sampleParse true
              true 15 16 "t1" sampleEvents).1.mEventDataList = samplePastModel.mEventDataList) :=
  ⟨(updateFinished_error_ignored sampleParse samplePastModel).1,
    (updateFinished_error_ignored sampleParse samplePastModel).2.1,
    (updateFinished_error_ignored sampleParse samplePastModel).2.2.1,
    by decide,
    ((updateFinished_error_ignored sampleParse samplePastModel).2.2.2 true true 15 16 "t1"
      sampleEvents (by decide)).1⟩

/-- C10: for an applied response in which no stored timed event contributes an expiry
(the filter mode is neither `FilterPast` nor `FilterPastAndCurrent`, or the stored list
holds only all-day events), `expiryDate()` after `getEventsResult` equals `endDate` when
`endDate` is valid, and otherwise the day after `startDate` at 00:00:00.001. -/
theorem getEventsResult_expiry_fallback (m : NemoCalendarEventsModel)
    (dirExists addPathOk : Bool) (now created : Int) (tid : String) (evs : List EventData)
    (happ : Applied m tid evs)
    (hno : (m.mFilterMode ≠ FilterPast ∧ m.mFilterMode ≠ FilterPastAndCurrent)
      ∨ ∀ e ∈ (m.getEventsResult fromString dirExists addPathOk now created tid
          evs).1.mEventDataList, e.allDay = true) :
    (m.getEventsResult fromString dirExists addPathOk now created tid evs).1.expiryDate
      = if m.mEndDate.isValid = true then m.mEndDate
        else m.mStartDate.map (fun ms => (ms / msecsPerDay + 1) * msecsPerDay + 1) := by
  obtain ⟨b, hb⟩ :=
    getEventsResult_applied fromString m dirExists addPathOk now created tid evs happ
  obtain ⟨inv1, _⟩ := loop_expiryInv fromString m now evs
  rw [hb] at hno ⊢
  simp only [expiryDate] at hno ⊢
  have hnone : (loop fromString m (some now) evs).expiryDate = none := by
    cases hE : (loop fromString m (some now) evs).expiryDate with
    | none => rfl
    | some x =>
      obtain ⟨hm, e, he, hA, _⟩ := inv1 x hE
      rcases hno with ⟨h1, h2⟩ | hall
      · rcases hm with hm | hm
        · exact absurd hm h1
        · exact absurd hm h2
      · rw [hall e he] at hA
        exact absurd hA (by decide)
  rw [if_pos hnone]
  split_ifs
  · rfl
  · cases hS : m.mStartDate with
    | none => rfl
    | some ms =>
      simp only [QDateTime.addDays, QDateTime.setTime, Option.map_some', QTime, msecsPerDay]
      congr 1
      omega

theorem getEventsResult_expiry_fallback_witness :
    Applied sampleDatedModel "" sampleEvents
      ∧ ((sampleDatedModel.mFilterMode ≠ FilterPast
          ∧ sampleDatedModel.mFilterMode ≠ FilterPastAndCurrent)
        ∨ ∀ e ∈ (sampleDatedModel.getEventsResult sampleParse true true 15 16 ""
            sampleEvents).1.mEventDataList, e.allDay = true)
      ∧ (sampleDatedModel.getEventsResult sampleParse true true 15 16 ""
          sampleEvents).1.expiryDate
        = if sampleDatedModel.mEndDate.isValid = true then sampleDatedModel.mEndDate
          else sampleDatedModel.mStartDate.map
            (fun ms => (ms / msecsPerDay + 1) * msecsPerDay + 1) :=
  ⟨by decide, Or.inl (by decide),
    getEventsResult_expiry_fallback sampleParse sampleDatedModel true true 15 16 ""
      sampleEvents (by decide) (Or.inl (by decide))⟩

/-- C3: for an applied response whose stored list contains at least one non-all-day
event, and with all event times parsing to valid date-times, `expiryDate()` after
`getEventsResult` is the minimum over the stored non-all-day events of their effective
end time when the filter mode is `FilterPast`, and of their start time when the filter
mode is `FilterPastAndCurrent`. -/
theorem getEventsResult_expiry_isMinimum (m : NemoCalendarEventsModel)
    (dirExists addPathOk : Bool) (now created : Int) (tid : String) (evs : List EventData)
    (happ : Applied m tid evs)
    (htimed : ∃ e ∈ (m.getEventsResult fromString dirExists addPathOk now created tid
        evs).1.mEventDataList, e.allDay = false)
    (_hvalid : ∀ e ∈ evs, (fromString e.startTime).isValid = true
      ∧ (fromString e.endTime).isValid = true) :
    (m.mFilterMode = FilterPast →
        IsMinimumOf
          (m.getEventsResult fromString dirExists addPathOk now created tid evs).1.expiryDate
          (((m.getEventsResult fromString dirExists addPathOk now created tid
              evs).1.mEventDataList.filter (fun e => !e.allDay)).map
            (effectiveEndTime fromString m)))
      ∧ (m.mFilterMode = FilterPastAndCurrent →
        IsMinimumOf
          (m.getEventsResult fromString dirExists addPathOk now created tid evs).1.expiryDate
          (((m.getEventsResult fromString dirExists addPathOk now created tid
              evs).1.mEventDataList.filter (fun e => !e.allDay)).map
            (fun e => fromString e.startTime))) := by
  obtain ⟨b, hb⟩ :=
    getEventsResult_applied fromString m dirExists addPathOk now created tid evs happ
  rw [hb] at htimed ⊢
  simp only [expiryDate] at htimed ⊢
  have key : ∀ (hm : m.mFilterMode = FilterPast ∨ m.mFilterMode = FilterPastAndCurrent),
      IsMinimumOf
        (if (loop fromString m (some now) evs).expiryDate = none then
          if m.mEndDate.isValid = true then m.mEndDate
          else (m.mStartDate.addDays 1).setTime (QTime 0 0 0 1)
        else (loop fromString m (some now) evs).expiryDate)
        (((loop fromString m (some now) evs).mEventDataList.filter (fun e => !e.allDay)).map
          (expiryKey fromString m)) := by
    intro hm
    have hmin := loop_expiry_isMinimum fromString m now evs hm htimed
    have hne : (loop fromString m (some now) evs).expiryDate ≠ none := by
      obtain ⟨e, he, hA⟩ := htimed
      obtain ⟨x, _, hx, _, _⟩ := (loop_expiryInv fromString m now evs).2 hm e he hA
      rw [hx]; simp
    rw [if_neg hne]
    exact hmin
  constructor
  · intro hm
    have hk : expiryKey fromString m = effectiveEndTime fromString m := by
      funext e; simp [expiryKey, hm]
    rw [← hk]
    exact key (Or.inl hm)
  · intro hm
    have hne : m.mFilterMode ≠ FilterPast := by
      rw [hm]; exact fun h => filterPast_ne_pastAndCurrent h.symm
    have hk : expiryKey fromString m = fun e => fromString e.startTime := by
      funext e; simp [expiryKey, hne]
    rw [← hk]
    exact key (Or.inr hm)

theorem getEventsResult_expiry_isMinimum_witness :
    Applied samplePastModel "" sampleValidEvents
      ∧ (∃ e ∈ (samplePastModel.getEventsResult sampleParse true true 15 16 ""
          sampleValidEvents).1.mEventDataList, e.allDay = false)
      ∧ (∀ e ∈ sampleValidEvents, (sampleParse e.startTime).isValid = true
          ∧ (sampleParse e.endTime).isValid = true)
      ∧ samplePastModel.mFilterMode = FilterPast
      ∧ IsMinimumOf
          (samplePastModel.getEventsResult sampleParse true true 15 16 ""
            sampleValidEvents).1.expiryDate
          (((samplePastModel.getEventsResult sampleParse true true 15 16 ""
              sampleValidEvents).1.mEventDataList.filter (fun e => !e.allDay)).map
            (effectiveEndTime sampleParse samplePastModel)) :=
  ⟨by decide, by decide, by decide, by decide,
    (getEventsResult_expiry_isMinimum sampleParse samplePastModel true true 15 16 ""
      sampleValidEvents (by decide) (by decide) (by decide)).1 (by decide)⟩

/-- C4: the expiry timestamp marks when the cached list becomes stale: for every model
configuration, every incoming list and every time `t` with `now <= t < expiryDate()`,
where `expiryDate()` is the one produced at time `now`, running `getEventsResult` on the
same model and the same incoming list at time `t` stores the same list as at time
`now`. -/
theorem getEventsResult_list_stable_until_expiry (m : NemoCalendarEventsModel)
    (dirExists addPathOk : Bool) (now created t created2 : Int) (tid : String)
    (evs : List EventData) (hle : now ≤ t)
    (hlt : QDateTime.lt (some t)
      (m.getEventsResult fromString dirExists addPathOk now created tid evs).1.expiryDate
        = true) :
    (m.getEventsResult fromString dirExists addPathOk t created2 tid evs).1.mEventDataList
      = (m.getEventsResult fromString dirExists addPathOk now created tid
          evs).1.mEventDataList := by
  by_cases happ : Applied m tid evs
  · obtain ⟨b, hb⟩ :=
      getEventsResult_applied fromString m dirExists addPathOk now created tid evs happ
    obtain ⟨b2, hb2⟩ :=
      getEventsResult_applied fromString m dirExists addPathOk t created2 tid evs happ
    rw [hb] at hlt ⊢
    rw [hb2]
    simp only [expiryDate] at hlt ⊢
    exact loop_list_stable fromString m now t evs _ hle hlt
  · rw [getEventsResult_discarded fromString m dirExists addPathOk now created tid evs happ,
      getEventsResult_discarded fromString m dirExists addPathOk t created2 tid evs happ]

theorem getEventsResult_list_stable_until_expiry_witness :
    (15 : Int) ≤ 18
      ∧ QDateTime.lt (some 18)
          (samplePastModel.getEventsResult sampleParse true true 15 16 ""
            sampleEvents).1.expiryDate = true
      ∧ (samplePastModel.getEventsResult sampleParse true true 18 19 ""
          sampleEvents).1.mEventDataList
        = (samplePastModel.getEventsResult sampleParse true true 15 16 ""
            sampleEvents).1.mEventDataList :=
  ⟨by decide, by decide,
    getEventsResult_list_stable_until_expiry sampleParse samplePastModel true true 15 16 18 19
      "" sampleEvents (by decide) (by decide)⟩

/-- C8: the run `sampleShrinkActions` reaches a state with two stored events under a limit
of one, so `count()` is 1; the next applied response stores one event, `count()` is still
1, and `countChanged` is emitted all the same, because the old value is taken from the
length of the list and not from `count()`. -/
theorem countChanged_emitted_without_change :
    Reachable sampleParse sampleShrunkModel
      ∧ Applied sampleShrunkModel "t2" sampleAllDayEvents
      ∧ sampleShrunkModel.count = 1
      ∧ (sampleShrunkModel.getEventsResult sampleParse true true 15 16 "t2"
          sampleAllDayEvents).1.count = 1
      ∧ Effect.emit Signal.countChanged ∈
          (sampleShrunkModel.getEventsResult sampleParse true true 15 16 "t2"
            sampleAllDayEvents).2 :=
  ⟨reachable_run sampleParse sampleModel _ (Reachable.construct true true), by decide,
    by decide, by decide, by decide⟩

/-- C6: two calls are issued, then the first call finishes and stores its transaction id;
the result announced for that first call, which was issued before the most recent
`update()`, is applied and replaces the empty event list. -/
theorem late_response_changes_list :
    sampleLateSystem.issued = 2
      ∧ sampleLateSystem.model.mEventDataList = []
      ∧ (System.step sampleParse sampleTxn sampleLateSystem
          (Exchange.getEventsResult 0 true true 15 16 sampleAllDayEvents)).model.mEventDataList
        = sampleAllDayEvents := by
  decide

end Claims

end NemoCalendarEventsModel

end NemoCalendar
